import Mathlib

/-!
Shallow embedding of the testpipe pipeline validator (`testpipe.go`, package
`testpipe`), the canonical revision of the repository.  Go maps are modelled
as association lists (`List (String × String)`); a Go map assignment is a
cons onto the front, so `mapLookup` returning the most recent binding matches
Go's overwrite semantics and `List.isEmpty` matches `len(m) == 0` (keys are
never deleted).  File I/O performed by `loadTask` (read + YAML parse of a
task file) is abstracted as a function `fs : String → Option TaskConfig`
giving the parsed task config at a path, `none` meaning the read or parse
fails.  Errors, produced in Go with `fmt.Errorf`, are modelled as a
structured inductive `RunError` together with `RunError.message` rendering
the exact Go format strings.  The target platform's `os.PathSeparator`
is `/`.
-/

namespace Testpipe

/-- `atc.TaskRunConfig`: the `run:` section of a task config; only the
`path` field is consulted by testpipe. -/
structure TaskRunConfig where
  path : String
deriving DecidableEq, Repr

/-- `atc.TaskInputConfig`: a declared task input; only `Name` is used. -/
structure TaskInputConfig where
  name : String
deriving DecidableEq, Repr

/-- `atc.TaskOutputConfig`: a declared task output; only `Name` is used. -/
structure TaskOutputConfig where
  name : String
deriving DecidableEq, Repr

/-- `atc.TaskConfig`: the fields of a task definition consulted by
testpipe: declared `params` (a Go map; values never inspected by the
checks), the `run` section, declared `inputs` and `outputs`. -/
structure TaskConfig where
  params : List (String × String)
  run : TaskRunConfig
  inputs : List TaskInputConfig
  outputs : List TaskOutputConfig
deriving DecidableEq, Repr

/-- `atc.PlanConfig`: one step of a job plan.  Exactly the fields testpipe
reads: `Get`, `Resource`, `Put`, `Task`, `TaskConfigPath`, `TaskConfig`
(inline or resolved definition; `none` models a nil pointer), `Params`
(invoked params), `InputMapping`, `OutputMapping`, `Aggregate` and `Do`
(`none` models a nil slice). -/
inductive PlanConfig where
  | mk
      (get resource put task taskConfigPath : String)
      (taskConfig : Option TaskConfig)
      (params inputMapping outputMapping : List (String × String))
      (aggregate seqDo : Option (List PlanConfig))

namespace PlanConfig

def get : PlanConfig → String
  | .mk g _ _ _ _ _ _ _ _ _ _ => g

def resource : PlanConfig → String
  | .mk _ r _ _ _ _ _ _ _ _ _ => r

def put : PlanConfig → String
  | .mk _ _ p _ _ _ _ _ _ _ _ => p

def task : PlanConfig → String
  | .mk _ _ _ t _ _ _ _ _ _ _ => t

def taskConfigPath : PlanConfig → String
  | .mk _ _ _ _ tcp _ _ _ _ _ _ => tcp

def taskConfig : PlanConfig → Option TaskConfig
  | .mk _ _ _ _ _ tc _ _ _ _ _ => tc

def params : PlanConfig → List (String × String)
  | .mk _ _ _ _ _ _ ps _ _ _ _ => ps

def inputMapping : PlanConfig → List (String × String)
  | .mk _ _ _ _ _ _ _ im _ _ _ => im

def outputMapping : PlanConfig → List (String × String)
  | .mk _ _ _ _ _ _ _ _ om _ _ => om

def aggregate : PlanConfig → Option (List PlanConfig)
  | .mk _ _ _ _ _ _ _ _ _ agg _ => agg

def seqDo : PlanConfig → Option (List PlanConfig)
  | .mk _ _ _ _ _ _ _ _ _ _ ds => ds

/-- `atc.PlanConfig.Name()`: the display name of a step, used in error
messages: the `Get` name if set, else `Put`, else `Task`. -/
def name (p : PlanConfig) : String :=
  if p.get ≠ "" then p.get
  else if p.put ≠ "" then p.put
  else p.task

/-- `result.TaskConfig = &taskConfig` in `loadTask`: the step with its
task config replaced. -/
def withTaskConfig : PlanConfig → TaskConfig → PlanConfig
  | .mk g r pu t tcp _ ps im om agg ds, tc =>
      .mk g r pu t tcp (some tc) ps im om agg ds

/-- The resolved task config of a step, with a junk default; every use in
the embedding is guarded exactly where Go guarantees the pointer is
non-nil (after `flattenTask` has checked `result.TaskConfig == nil`). -/
def taskConfigD (p : PlanConfig) : TaskConfig :=
  (p.taskConfig).getD ⟨[], ⟨""⟩, [], []⟩

end PlanConfig

/-- Go map lookup `m[k]` (with its `ok` flag) on the association-list
model: the most recent binding wins. -/
def mapLookup (m : List (String × String)) (k : String) : Option String :=
  m.lookup k

/-- Go map assignment `m[k] = v` on the association-list model. -/
def mapInsert (m : List (String × String)) (k v : String) :
    List (String × String) :=
  (k, v) :: m

/-- `flattenedPlan`: depth-first left-to-right flattening of a plan
sequence.  Mirrors the Go `switch`: an `Aggregate` node (non-nil slice) is
expanded in place, else a `Do` node is, else a node with a non-empty
`Get`, `Put` or `Task` field is emitted; any other node is passed over
without being emitted (the `switch` has no `default` case). -/
def flattenedPlan : List PlanConfig → List PlanConfig
  | [] => []
  | .mk _ _ _ _ _ _ _ _ _ (some children) _ :: rest =>
      flattenedPlan children ++ flattenedPlan rest
  | .mk _ _ _ _ _ _ _ _ _ none (some children) :: rest =>
      flattenedPlan children ++ flattenedPlan rest
  | .mk g r pu t tcp tc ps im om none none :: rest =>
      if g ≠ "" ∨ pu ≠ "" ∨ t ≠ "" then
        PlanConfig.mk g r pu t tcp tc ps im om none none :: flattenedPlan rest
      else
        flattenedPlan rest

/-- The path separator, `string(os.PathSeparator)`, on the target
platform (linux): `/`. -/
def pathSeparator : String := "/"

/-- Split a character list at every occurrence of a separator character,
keeping empty pieces: char-level model of Go's `strings.Split` (and of
`String.splitOn` for a one-character separator). -/
def splitOnChar (sep : Char) : List Char → List Char → List (List Char)
  | [], acc => [acc.reverse]
  | c :: rest, acc =>
      if c = sep then acc.reverse :: splitOnChar sep rest []
      else splitOnChar sep rest (c :: acc)

/-- Model of Go's `path/filepath.Clean` for slash-separated paths:
collapse repeated separators, drop `.` components, resolve `..` against a
preceding component (dropping a leading `..` only on rooted paths), and
return `.` (or `/` when rooted) if nothing remains. -/
def pathClean (p : String) : String :=
  let rooted : Bool := match p.data with | '/' :: _ => true | _ => false
  let comps := (splitOnChar '/' p.data []).filter
    (fun c => ¬(c = [] ∨ c = ['.']))
  let stack := comps.foldl
    (fun stack c =>
      if c = ['.', '.'] then
        match stack with
        | [] => if rooted then [] else [['.', '.']]
        | prev :: rest =>
            if prev = ['.', '.'] then c :: stack else rest
      else c :: stack)
    ([] : List (List Char))
  let final := stack.reverse
  if final.isEmpty then (if rooted then "/" else ".")
  else
    String.mk ((if rooted then ['/'] else []) ++ List.intercalate ['/'] final)

/-- Model of Go's `path/filepath.Join` on two elements: empty elements
are skipped, the rest are joined with `/` and cleaned; all-empty input
yields the empty string. -/
def filepathJoin (a b : String) : String :=
  if a = "" then (if b = "" then "" else pathClean b)
  else pathClean (a ++ "/" ++ b)

/-- The loop of `stringsReplaceAll` on character lists, left to right and
non-overlapping; `fuel` bounds the recursion and any `fuel ≥ length of
the text` gives the replacement of every occurrence, since each step
consumes at least one character of the text. -/
def replaceAllAux (pat rep : List Char) : Nat → List Char → List Char
  | 0, _ => []
  | _ + 1, [] => []
  | fuel + 1, c :: rest =>
      if pat ≠ [] ∧ pat.isPrefixOf (c :: rest) then
        rep ++ replaceAllAux pat rep fuel ((c :: rest).drop pat.length)
      else
        c :: replaceAllAux pat rep fuel rest

/-- Model of Go's `strings.Replace(s, pattern, replacement, -1)`: replace
every non-overlapping occurrence, scanning left to right; an empty
pattern makes Go insert the replacement at every character boundary. -/
def stringsReplaceAll (s pattern replacement : String) : String :=
  if pattern = "" then
    String.mk (replacement.data ++
      s.data.foldr (fun c acc => (c :: replacement.data) ++ acc) [])
  else
    String.mk (replaceAllAux pattern.data replacement.data s.data.length s.data)

/-- Model of Go's `strings.Split(s, sep)[0]` for the one-character path
separator: the text before the first separator (the whole string when
the separator does not occur). -/
def firstSegment (s : String) : String :=
  String.mk (s.data.takeWhile (fun c => c ≠ '/'))

/-- The errors `Run` and its helpers produce with `fmt.Errorf` (and, for
the two checkers, after rendering the report template), as a structured
inductive; `RunError.message` renders each one to the Go format string.
`taskLoad` covers both the unreadable-file and the unparsable-file case
of `loadTask`, whose distinction testpipe does not consult further. -/
inductive RunError where
  | missingResources (pipelinePath jobName taskName : String)
      (missing : List String)
  | paramParity (pipelinePath jobName taskName : String)
      (extras missing : List String)
  | noConfigProvided (taskConfigPath : String)
  | pathNotFound (taskConfigPath : String)
  | taskLoad (path : String)
  | missingDefinition (jobName taskName : String)
  | missingRunPath (jobName taskName : String)
deriving DecidableEq, Repr

/-- The text of each error, following the `fmt.Errorf` format strings of
`testpipe.go`.  For the two checker errors the Go code appends the
rendered report template; that rendering is the report sink, outside the
core, so only the fixed prefix is given here (the structured data the
template receives is carried by the constructor's fields). -/
def RunError.message : RunError → String
  | .missingResources _ _ _ _ => "Task invocation is missing resources: "
  | .paramParity _ _ _ _ _ => "Params do not have parity: "
  | .noConfigProvided tcp => "failed to load " ++ tcp ++ "; no config provided"
  | .pathNotFound tcp => "failed to find path for task: " ++ tcp
  | .taskLoad path => "failed to open task at " ++ path
  | .missingDefinition j t => "task " ++ (j ++ "/" ++ t ++ " is missing a definition")
  | .missingRunPath j t => "task " ++ (j ++ "/" ++ t ++ " is missing a path")

/-- `loadTask`: resolve a task's external definition.  Fails with
`no config provided` when the resource map is empty; looks up the first
path segment of `TaskConfigPath` in the map and fails with
`failed to find path` when it is absent or bound to the empty string;
otherwise reads and parses the file at
`filepath.Join(resourcePath, strings.Replace(taskConfigPath, resourceRoot, "", -1))`,
returning the step with its `TaskConfig` set, or a load error. -/
def loadTask (fs : String → Option TaskConfig)
    (resourceMap : List (String × String)) (task : PlanConfig) :
    Except RunError PlanConfig :=
  if resourceMap.isEmpty then
    .error (.noConfigProvided task.taskConfigPath)
  else
    let resourceRoot := firstSegment task.taskConfigPath
    match mapLookup resourceMap resourceRoot with
    | some resourcePath =>
        if resourcePath ≠ "" then
          let path := filepathJoin resourcePath
            (stringsReplaceAll task.taskConfigPath resourceRoot "")
          match fs path with
          | some taskConfig => .ok (task.withTaskConfig taskConfig)
          | none => .error (.taskLoad path)
        else .error (.pathNotFound task.taskConfigPath)
    | none => .error (.pathNotFound task.taskConfigPath)

/-- `flattenTask`: produce the canonical task step.  When the step names
an external config path, load it via `loadTask`; then fail when the
resulting step has no task config (`missing a definition`) or its run
path is empty (`missing a path`); otherwise return it. -/
def flattenTask (fs : String → Option TaskConfig)
    (resourceMap : List (String × String)) (task : PlanConfig)
    (jobName : String) : Except RunError PlanConfig :=
  match (if task.taskConfigPath ≠ "" then loadTask fs resourceMap task
         else pure task) with
  | .error e => .error e
  | .ok result =>
      match result.taskConfig with
      | none => .error (.missingDefinition jobName task.name)
      | some tc =>
          if tc.run.path = "" then
            .error (.missingRunPath jobName task.name)
          else .ok result

/-- The `missing` list built by `testParityOfParams`: declared param keys
whose lookup in the invoked params fails (`_, ok := task.Params[k]; !ok`),
in declaration iteration order. -/
def parityMissing (task : PlanConfig) : List String :=
  (task.taskConfigD.params.map Prod.fst).filter
    (fun k => (mapLookup task.params k).isNone)

/-- The `extras` list built by `testParityOfParams`: invoked param keys
whose lookup in the declared params fails, in invocation iteration
order. -/
def parityExtras (task : PlanConfig) : List String :=
  (task.params.map Prod.fst).filter
    (fun k => (mapLookup task.taskConfigD.params k).isNone)

/-- `testParityOfParams`: `missing` is the declared param keys absent
from the invocation, `extras` the invoked keys absent from the
declaration; any of them non-empty is an error.  Only key presence is
consulted. -/
def testParityOfParams (task : PlanConfig) (jobName pipelinePath : String) :
    Except RunError Unit :=
  if (parityMissing task).length > 0 ∨ (parityExtras task).length > 0 then
    .error (.paramParity pipelinePath jobName task.name
      (parityExtras task) (parityMissing task))
  else .ok ()

/-- The inner loop of `testPresenceOfRequiredResources`: a declared input
is satisfied when some accumulated resource equals its name, or equals
the name's image under the step's `InputMapping`. -/
def inputSatisfied (resources : List String)
    (inputMapping : List (String × String)) (inputName : String) : Bool :=
  resources.any (fun resource =>
    inputName == resource ||
      match mapLookup inputMapping inputName with
      | some v => v == resource
      | none => false)

/-- The `missing` list built by `testPresenceOfRequiredResources`: the
declared input names not satisfied against the given availability list,
in declaration order. -/
def missingInputs (resources : List String) (task : PlanConfig) :
    List String :=
  (task.taskConfigD.inputs.map (·.name)).filter
    (fun n => ¬ inputSatisfied resources task.inputMapping n)

/-- `testPresenceOfRequiredResources`: collect the declared inputs
satisfied neither directly nor through `InputMapping`; non-empty is an
error. -/
def testPresenceOfRequiredResources (resources : List String)
    (task : PlanConfig) (jobName pipelinePath : String) :
    Except RunError Unit :=
  if (missingInputs resources task).length > 0 then
    .error (.missingResources pipelinePath jobName task.name
      (missingInputs resources task))
  else .ok ()

/-- The per-job traversal state of `Run`: the accumulated availability
list `resources` and the per-job copy of the resource map (mutated by
renaming `get` steps). -/
structure JobState where
  resources : List String
  resourceMap : List (String × String)
deriving DecidableEq, Repr

/-- One iteration of `Run`'s loop over the flattened plan, mirroring the
Go `switch`:
a `get` appends its name to the availability list and, when it renames a
resource, also appends the underlying resource name and binds the `get`
name in the resource map to the underlying resource's path (the empty
string when the underlying name is unmapped);
a `put` appends its name;
a `task` is resolved by `flattenTask`, checked by `testParityOfParams`
then by `testPresenceOfRequiredResources` against the resources
accumulated so far, and only afterwards its declared output names and its
`OutputMapping` values are appended. -/
def processStep (fs : String → Option TaskConfig)
    (pipelinePath jobName : String) (st : JobState) (p : PlanConfig) :
    Except RunError JobState :=
  if p.get ≠ "" then
    let resources := st.resources ++ [p.get]
    if p.resource ≠ "" then
      let resources := resources ++ [p.resource]
      let origPath := (mapLookup st.resourceMap p.resource).getD ""
      .ok ⟨resources, mapInsert st.resourceMap p.get origPath⟩
    else
      .ok ⟨resources, st.resourceMap⟩
  else if p.put ≠ "" then
    .ok ⟨st.resources ++ [p.put], st.resourceMap⟩
  else if p.task ≠ "" then
    match flattenTask fs st.resourceMap p jobName with
    | .error e => .error e
    | .ok canonicalTask =>
        match testParityOfParams canonicalTask jobName pipelinePath with
        | .error e => .error e
        | .ok _ =>
            match testPresenceOfRequiredResources st.resources
                canonicalTask jobName pipelinePath with
            | .error e => .error e
            | .ok _ =>
                .ok ⟨st.resources
                  ++ canonicalTask.taskConfigD.outputs.map (·.name)
                  ++ canonicalTask.outputMapping.map Prod.snd,
                  st.resourceMap⟩
  else
    .ok st

/-- `Run`'s loop over a flattened plan: thread the job state left to
right, stopping at the first error. -/
def processSeq (fs : String → Option TaskConfig)
    (pipelinePath jobName : String) (st : JobState) :
    List PlanConfig → Except RunError JobState
  | [] => .ok st
  | p :: rest =>
      match processStep fs pipelinePath jobName st p with
      | .ok st' => processSeq fs pipelinePath jobName st' rest
      | .error e => .error e

/-- A job: a name and a plan (the root step sequence). -/
structure Job where
  name : String
  plan : List PlanConfig

/-- `Run`, restricted to one job: flatten the plan and replay it from an
empty availability list and a fresh copy of the configured resource
map. -/
def runJob (fs : String → Option TaskConfig) (pipelinePath : String)
    (configMap : List (String × String)) (job : Job) :
    Except RunError Unit :=
  match processSeq fs pipelinePath job.name ⟨[], configMap⟩
      (flattenedPlan job.plan) with
  | .ok _ => .ok ()
  | .error e => .error e

/-- `Run` over the parsed pipeline's jobs: each job is validated in turn
against a fresh copy of the configured resource map, stopping at the
first error. -/
def runJobs (fs : String → Option TaskConfig) (pipelinePath : String)
    (configMap : List (String × String)) : List Job → Except RunError Unit
  | [] => .ok ()
  | job :: rest =>
      match runJob fs pipelinePath configMap job with
      | .ok _ => runJobs fs pipelinePath configMap rest
      | .error e => .error e

/-! ## Helper lemmas -/

theorem runJob_eq_ok (fs : String → Option TaskConfig)
    (pipelinePath : String) (cfg : List (String × String)) (j : Job)
    (st : JobState)
    (h : processSeq fs pipelinePath j.name ⟨[], cfg⟩
      (flattenedPlan j.plan) = .ok st) :
    runJob fs pipelinePath cfg j = .ok () := by
  unfold runJob
  rw [h]

theorem runJob_eq_error (fs : String → Option TaskConfig)
    (pipelinePath : String) (cfg : List (String × String)) (j : Job)
    (e : RunError)
    (h : processSeq fs pipelinePath j.name ⟨[], cfg⟩
      (flattenedPlan j.plan) = .error e) :
    runJob fs pipelinePath cfg j = .error e := by
  unfold runJob
  rw [h]

theorem mapLookup_isNone (m : List (String × String)) (k : String) :
    (mapLookup m k).isNone = decide (k ∉ m.map Prod.fst) := by
  induction m with
  | nil => simp [mapLookup]
  | cons hd tl ih =>
      obtain ⟨a, b⟩ := hd
      simp only [mapLookup, List.lookup] at ih ⊢
      by_cases h : k = a
      · subst h; simp
      · simp only [List.map_cons, List.mem_cons, h, false_or]
        rw [show (k == a) = false by simp [h]]
        exact ih

theorem parityMissing_keys (task : PlanConfig) :
    parityMissing task = (task.taskConfigD.params.map Prod.fst).filter
      (fun k => decide (k ∉ task.params.map Prod.fst)) := by
  unfold parityMissing
  rw [show (fun k => (mapLookup task.params k).isNone) =
      (fun k => decide (k ∉ task.params.map Prod.fst)) from
    funext fun k => mapLookup_isNone task.params k]

theorem parityExtras_keys (task : PlanConfig) :
    parityExtras task = (task.params.map Prod.fst).filter
      (fun k => decide (k ∉ task.taskConfigD.params.map Prod.fst)) := by
  unfold parityExtras
  rw [show (fun k => (mapLookup task.taskConfigD.params k).isNone) =
      (fun k => decide (k ∉ task.taskConfigD.params.map Prod.fst)) from
    funext fun k => mapLookup_isNone task.taskConfigD.params k]

theorem testParityOfParams_ok_iff (task : PlanConfig)
    (jobName pipelinePath : String) :
    testParityOfParams task jobName pipelinePath = .ok () ↔
      parityMissing task = [] ∧ parityExtras task = [] := by
  unfold testParityOfParams
  split
  · rename_i h
    constructor
    · intro he; cases he
    · intro ⟨hm, he⟩
      rw [hm, he] at h
      simp at h
  · rename_i h
    push_neg at h
    constructor
    · intro _
      exact ⟨List.length_eq_zero.mp (Nat.le_zero.mp h.1),
             List.length_eq_zero.mp (Nat.le_zero.mp h.2)⟩
    · intro _; rfl

/-! ## C9 -/

/-- C9: for every resolved task declaring zero inputs, the
resource-availability check returns success, whatever the availability
list contains. -/
theorem availability_check_no_inputs (resources : List String)
    (task : PlanConfig) (jobName pipelinePath : String)
    (h : task.taskConfigD.inputs = []) :
    testPresenceOfRequiredResources resources task jobName pipelinePath =
      .ok () := by
  unfold testPresenceOfRequiredResources missingInputs
  rw [h]
  rfl

/-- The task of the C9 witness: an inline definition with no declared
inputs. -/
def c9Task : PlanConfig :=
  .mk "" "" "" "t9" "" (some ⟨[], ⟨"run.sh"⟩, [], []⟩) [] [] [] none none

/-- C9 witness: the zero-input check passes against a non-empty
availability list. -/
theorem availability_check_no_inputs_witness :
    testPresenceOfRequiredResources ["r1", "r2"] c9Task "j" "p" = .ok () :=
  availability_check_no_inputs ["r1", "r2"] c9Task "j" "p" rfl

/-! ## C2 -/

/-- C2: the param-parity check passes exactly when the invoked-param key
set equals the declared-param key set; otherwise it fails carrying
`extras` = invoked keys not declared and `missing` = declared keys not
invoked; and the verdict depends only on the key lists, never on the
values. -/
theorem param_parity_keyset_spec (task : PlanConfig)
    (jobName pipelinePath : String) :
    (testParityOfParams task jobName pipelinePath = .ok () ↔
      ∀ k, k ∈ task.params.map Prod.fst ↔
        k ∈ task.taskConfigD.params.map Prod.fst) ∧
    (parityExtras task = (task.params.map Prod.fst).filter
        (fun k => decide (k ∉ task.taskConfigD.params.map Prod.fst)) ∧
      parityMissing task = (task.taskConfigD.params.map Prod.fst).filter
        (fun k => decide (k ∉ task.params.map Prod.fst))) ∧
    (testParityOfParams task jobName pipelinePath = .ok () ∨
      testParityOfParams task jobName pipelinePath =
        .error (.paramParity pipelinePath jobName task.name
          (parityExtras task) (parityMissing task))) ∧
    (∀ task' : PlanConfig, task'.name = task.name →
      task'.params.map Prod.fst = task.params.map Prod.fst →
      task'.taskConfigD.params.map Prod.fst =
        task.taskConfigD.params.map Prod.fst →
      testParityOfParams task' jobName pipelinePath =
        testParityOfParams task jobName pipelinePath) := by
  refine ⟨?_, ⟨parityExtras_keys task, parityMissing_keys task⟩, ?_, ?_⟩
  · rw [testParityOfParams_ok_iff, parityMissing_keys, parityExtras_keys]
    simp only [List.filter_eq_nil_iff, decide_eq_true_eq, not_not]
    constructor
    · intro ⟨hm, he⟩ k
      exact ⟨fun hk => he k hk, fun hk => hm k hk⟩
    · intro h
      exact ⟨fun k hk => (h k).mpr hk, fun k hk => (h k).mp hk⟩
  · unfold testParityOfParams
    split
    · exact Or.inr rfl
    · exact Or.inl rfl
  · intro task' hn hinv hdecl
    unfold testParityOfParams
    rw [parityMissing_keys task', parityExtras_keys task',
      parityMissing_keys task, parityExtras_keys task, hn, hinv, hdecl]

/-- The C2 witness tasks: identical param keys, different values. -/
def c2Task : PlanConfig :=
  .mk "" "" "" "t2" ""
    (some ⟨[("a", "x"), ("b", "y")], ⟨"run.sh"⟩, [], []⟩)
    [("a", "1"), ("b", "2")] [] [] none none

/-- A variant of `c2Task` whose param values (invoked and declared) all
differ from `c2Task`'s, keys unchanged. -/
def c2TaskVariant : PlanConfig :=
  .mk "" "" "" "t2" ""
    (some ⟨[("a", "other"), ("b", "")], ⟨"run.sh"⟩, [], []⟩)
    [("a", "42"), ("b", "")] [] [] none none

/-- C2 witness: with equal key sets the check passes, and changing only
the values changes nothing. -/
theorem param_parity_keyset_spec_witness :
    testParityOfParams c2Task "j" "p" = .ok () ∧
    testParityOfParams c2TaskVariant "j" "p" =
      testParityOfParams c2Task "j" "p" := by
  have h := param_parity_keyset_spec c2Task "j" "p"
  exact ⟨h.1.mpr (fun k => Iff.rfl), h.2.2.2 c2TaskVariant rfl rfl rfl⟩

/-! ## C7 -/

/-- C7: with a non-empty `taskConfigPath`, `loadTask` fails with an
unresolved-resource error (`no config provided` / `failed to find path`)
exactly when the resource map is empty, or the path's first segment is
absent from it, or that segment is bound to the empty string; and a step
carrying only an inline definition (empty `taskConfigPath`) can never
fail that way, since `flattenTask` then skips `loadTask` entirely. -/
theorem loadTask_unresolved_spec (fs : String → Option TaskConfig)
    (rmap : List (String × String)) (t : PlanConfig) :
    ((loadTask fs rmap t = .error (.noConfigProvided t.taskConfigPath) ∨
      loadTask fs rmap t = .error (.pathNotFound t.taskConfigPath)) ↔
      (rmap.isEmpty = true ∨
        mapLookup rmap (firstSegment t.taskConfigPath) = none ∨
        mapLookup rmap (firstSegment t.taskConfigPath) = some "")) ∧
    (t.taskConfigPath = "" → ∀ jobName,
      flattenTask fs rmap t jobName = .ok t ∨
      flattenTask fs rmap t jobName =
        .error (.missingDefinition jobName t.name) ∨
      flattenTask fs rmap t jobName =
        .error (.missingRunPath jobName t.name)) := by
  constructor
  · unfold loadTask
    split
    · rename_i he
      simp [he]
    · rename_i he
      dsimp only
      split
      · rename_i p hlook
        split
        · rename_i hp
          split <;> simp_all
        · rename_i hp
          simp_all
      · rename_i hlook
        simp_all
  · intro htcp jobName
    have hbind : flattenTask fs rmap t jobName =
        (match t.taskConfig with
         | none => Except.error (.missingDefinition jobName t.name)
         | some tc =>
             if tc.run.path = "" then
               Except.error (.missingRunPath jobName t.name)
             else pure t) := by
      unfold flattenTask
      rw [htcp]
      rfl
    cases hc : t.taskConfig with
    | none =>
        right; left
        rw [hbind, hc]
    | some tc =>
        by_cases hrp : tc.run.path = ""
        · right; right
          rw [hbind, hc]
          simp [hrp]
        · left
          rw [hbind, hc]
          simp [hrp, pure, Except.pure]

/-- The external-path task of the C7 witness; its first segment `a` is
not a key of the witness resource map. -/
def c7Task : PlanConfig :=
  .mk "" "" "" "t7" "a/t.yml" none [] [] [] none none

/-- The inline-only task of the C7 witness. -/
def c7Inline : PlanConfig :=
  .mk "" "" "" "t7i" "" none [] [] [] none none

/-- C7 witness: an unmapped first segment produces an
unresolved-resource error, and an inline-only step resolves without
one. -/
theorem loadTask_unresolved_spec_witness :
    (loadTask (fun _ => none) [("b", "/d")] c7Task =
        .error (.noConfigProvided "a/t.yml") ∨
      loadTask (fun _ => none) [("b", "/d")] c7Task =
        .error (.pathNotFound "a/t.yml")) ∧
    (flattenTask (fun _ => none) [("b", "/d")] c7Inline "j" = .ok c7Inline ∨
      flattenTask (fun _ => none) [("b", "/d")] c7Inline "j" =
        .error (.missingDefinition "j" "t7i") ∨
      flattenTask (fun _ => none) [("b", "/d")] c7Inline "j" =
        .error (.missingRunPath "j" "t7i")) := by
  have h1 := loadTask_unresolved_spec (fun _ => none) [("b", "/d")] c7Task
  have h2 := loadTask_unresolved_spec (fun _ => none) [("b", "/d")] c7Inline
  exact ⟨h1.1.mpr (Or.inr (Or.inl rfl)), h2.2 rfl "j"⟩

/-! ## C6 -/

/-- C6: resolution fails with an incomplete-task error exactly when the
resolved step has no task config (`missing a definition`) or its run
path is empty (`missing a path`); both checks run on every resolution,
inline definitions included, and the reported texts are
`task <job>/<task> is missing a definition` / `... is missing a path`. -/
theorem flattenTask_incomplete_spec (fs : String → Option TaskConfig)
    (rmap : List (String × String)) (t : PlanConfig) (jobName : String)
    (res : PlanConfig)
    (hres : (if t.taskConfigPath ≠ "" then loadTask fs rmap t
             else pure t) = Except.ok res) :
    (flattenTask fs rmap t jobName =
        .error (.missingDefinition jobName t.name) ↔
      res.taskConfig = none) ∧
    (flattenTask fs rmap t jobName =
        .error (.missingRunPath jobName t.name) ↔
      ∃ tc, res.taskConfig = some tc ∧ tc.run.path = "") ∧
    (RunError.missingDefinition jobName t.name).message =
      "task " ++ (jobName ++ "/" ++ t.name ++ " is missing a definition") ∧
    (RunError.missingRunPath jobName t.name).message =
      "task " ++ (jobName ++ "/" ++ t.name ++ " is missing a path") := by
  have hft : flattenTask fs rmap t jobName =
      (match res.taskConfig with
       | none => Except.error (.missingDefinition jobName t.name)
       | some tc =>
           if tc.run.path = "" then
             Except.error (.missingRunPath jobName t.name)
           else pure res) := by
    unfold flattenTask
    rw [hres]
    rfl
  refine ⟨?_, ?_, rfl, rfl⟩
  · rw [hft]
    cases hc : res.taskConfig with
    | none => simp
    | some tc =>
        by_cases hrp : tc.run.path = "" <;>
          simp [hrp, pure, Except.pure]
  · rw [hft]
    cases hc : res.taskConfig with
    | none => simp
    | some tc =>
        by_cases hrp : tc.run.path = "" <;>
          simp [hrp, pure, Except.pure]

/-- The task of the C6 witness: neither external path nor inline
config (spec scenario D). -/
def c6Inline : PlanConfig :=
  .mk "" "" "" "task-d" "" none [] [] [] none none

/-- C6 witness: a step with neither `file:` nor inline `config:` fails
as `missing a definition`, with the stated text. -/
theorem flattenTask_incomplete_spec_witness :
    flattenTask (fun _ => none) [] c6Inline "job1" =
      .error (.missingDefinition "job1" "task-d") ∧
    (RunError.missingDefinition "job1" "task-d").message =
      "task " ++ ("job1" ++ "/" ++ "task-d" ++
        " is missing a definition") := by
  have h := flattenTask_incomplete_spec (fun _ => none) [] c6Inline
    "job1" c6Inline rfl
  exact ⟨h.1.mpr rfl, h.2.2.1⟩

/-! ## C10 -/

/-- C10: a `get` that renames (`resourceRef` present) appends both its
local alias name and the underlying resource name to the availability
list — so a later task input naming either is satisfied — while a `get`
without a rename appends only its own name. -/
theorem get_rename_availability (fs : String → Option TaskConfig)
    (pipelinePath jobName : String) (st : JobState) (p : PlanConfig)
    (hget : p.get ≠ "") :
    (p.resource ≠ "" →
      processStep fs pipelinePath jobName st p =
        .ok ⟨st.resources ++ [p.get, p.resource],
             mapInsert st.resourceMap p.get
               ((mapLookup st.resourceMap p.resource).getD "")⟩ ∧
      (∀ im rest, inputSatisfied
          ((st.resources ++ [p.get, p.resource]) ++ rest) im
          p.resource = true) ∧
      (∀ im rest, inputSatisfied
          ((st.resources ++ [p.get, p.resource]) ++ rest) im
          p.get = true)) ∧
    (p.resource = "" →
      processStep fs pipelinePath jobName st p =
        .ok ⟨st.resources ++ [p.get], st.resourceMap⟩) := by
  constructor
  · intro hres
    refine ⟨?_, ?_, ?_⟩
    · unfold processStep
      rw [if_pos hget, if_pos hres]
      simp
    · intro im rest
      rw [inputSatisfied, List.any_eq_true]
      exact ⟨p.resource, by simp, by simp⟩
    · intro im rest
      rw [inputSatisfied, List.any_eq_true]
      exact ⟨p.get, by simp, by simp⟩
  · intro hres
    unfold processStep
    rw [if_pos hget, if_neg (by simp [hres])]

/-- The renaming `get` of the C10 witness. -/
def c10Get : PlanConfig :=
  .mk "alias" "underlying" "" "" "" none [] [] [] none none

/-- The plain `get` of the C10 witness. -/
def c10Plain : PlanConfig :=
  .mk "plain" "" "" "" "" none [] [] [] none none

/-- C10 witness: the renaming `get` makes both names available (and the
underlying name satisfies an input directly); the plain `get` adds only
its own name. -/
theorem get_rename_availability_witness :
    processStep (fun _ => none) "p" "j" ⟨[], []⟩ c10Get =
      .ok ⟨["alias", "underlying"], [("alias", "")]⟩ ∧
    inputSatisfied (["alias", "underlying"] ++ []) [] "underlying" = true ∧
    processStep (fun _ => none) "p" "j" ⟨[], []⟩ c10Plain =
      .ok ⟨["plain"], []⟩ := by
  have h1 := get_rename_availability (fun _ => none) "p" "j" ⟨[], []⟩
    c10Get (by decide)
  have h2 := get_rename_availability (fun _ => none) "p" "j" ⟨[], []⟩
    c10Plain (by decide)
  exact ⟨(h1.1 (by decide)).1, (h1.1 (by decide)).2.1 [] [],
    h2.2 rfl⟩

/-! ## C3 -/

theorem flattenedPlan_append (l1 l2 : List PlanConfig) :
    flattenedPlan (l1 ++ l2) = flattenedPlan l1 ++ flattenedPlan l2 := by
  induction l1 with
  | nil => simp [flattenedPlan]
  | cons p rest ih =>
      obtain ⟨g, r, pu, t, tcp, tc, ps, im, om, agg, ds⟩ := p
      cases agg with
      | some children => simp [flattenedPlan, ih, List.append_assoc]
      | none =>
          cases ds with
          | some children => simp [flattenedPlan, ih, List.append_assoc]
          | none =>
              by_cases h : g ≠ "" ∨ pu ≠ "" ∨ t ≠ "" <;>
                simp [flattenedPlan, h, ih]

/-- A step matching none of the five shapes: no get/put/task name, no
aggregate, no do. -/
def malformedStep : PlanConfig :=
  .mk "" "" "" "" "" none [] [] [] none none

/-- A well-formed `get` step used alongside `malformedStep`. -/
def c3Get : PlanConfig :=
  .mk "r" "" "" "" "" none [] [] [] none none

/-- C3 counterexample: a plan containing a step matching none of the
five shapes is NOT rejected — flattening silently drops the step and the
run completes without any error. -/
theorem malformed_step_fatal_cex :
    flattenedPlan [malformedStep, c3Get] = [c3Get] ∧
    runJob (fun _ => none) "pipeline.yml" [] ⟨"job", [malformedStep]⟩ =
      .ok () := by
  constructor
  · simp [malformedStep, c3Get, flattenedPlan]
  · unfold runJob
    dsimp only
    rw [show flattenedPlan [malformedStep] = [] by
      simp [malformedStep, flattenedPlan]]
    rfl

/-- C3 (amended): a node matching none of the five shapes is silently
omitted by `flattenedPlan` (the Go switch has no default case), and the
run proceeds exactly as if the node were absent; no malformed-plan error
exists in the canonical revision. -/
theorem malformed_step_silently_dropped (p : PlanConfig)
    (pre post : List PlanConfig)
    (hagg : p.aggregate = none) (hdo : p.seqDo = none)
    (hg : p.get = "") (hp : p.put = "") (ht : p.task = "") :
    flattenedPlan (pre ++ p :: post) = flattenedPlan (pre ++ post) ∧
    ∀ (fs : String → Option TaskConfig) (pipelinePath : String)
      (cfg : List (String × String)) (jobName : String),
      runJob fs pipelinePath cfg ⟨jobName, pre ++ p :: post⟩ =
        runJob fs pipelinePath cfg ⟨jobName, pre ++ post⟩ := by
  have hdrop : flattenedPlan (p :: post) = flattenedPlan post := by
    obtain ⟨g, r, pu, t, tcp, tc, ps, im, om, agg, ds⟩ := p
    simp only [PlanConfig.aggregate] at hagg
    simp only [PlanConfig.seqDo] at hdo
    simp only [PlanConfig.get] at hg
    simp only [PlanConfig.put] at hp
    simp only [PlanConfig.task] at ht
    subst hagg hdo hg hp ht
    simp [flattenedPlan]
  have hflat : flattenedPlan (pre ++ p :: post) =
      flattenedPlan (pre ++ post) := by
    rw [flattenedPlan_append, flattenedPlan_append, hdrop]
  refine ⟨hflat, ?_⟩
  intro fs pipelinePath cfg jobName
  unfold runJob
  rw [show (Job.mk jobName (pre ++ p :: post)).plan = pre ++ p :: post
      from rfl,
    show (Job.mk jobName (pre ++ post)).plan = pre ++ post from rfl, hflat]

/-- C3 witness for the amended claim: the concrete malformed step among
well-formed steps is dropped and the run is unchanged. -/
theorem malformed_step_silently_dropped_witness :
    flattenedPlan ([c3Get] ++ malformedStep :: []) =
      flattenedPlan ([c3Get] ++ []) ∧
    runJob (fun _ => none) "pipeline.yml" []
        ⟨"job", [c3Get] ++ malformedStep :: []⟩ =
      runJob (fun _ => none) "pipeline.yml" [] ⟨"job", [c3Get] ++ []⟩ := by
  have h := malformed_step_silently_dropped malformedStep [c3Get] []
    rfl rfl rfl rfl rfl
  exact ⟨h.1, h.2 (fun _ => none) "pipeline.yml" [] "job"⟩

/-! ## C4 -/

/-- The upstream task of C4: declares output `some-resource` and maps it
to `a-resource` via `output_mapping`, inline definition. -/
def c4Task : PlanConfig :=
  .mk "" "" "" "t4" ""
    (some ⟨[], ⟨"run.sh"⟩, [], [⟨"some-resource"⟩]⟩)
    [] [] [("some-resource", "a-resource")] none none

/-- The downstream task of C4: requires `some-resource` — the name the
claim says must NOT be available. -/
def c4Downstream : PlanConfig :=
  .mk "" "" "" "t4b" ""
    (some ⟨[], ⟨"run.sh"⟩, [⟨"some-resource"⟩], []⟩)
    [] [] [] none none

theorem c4Step1 :
    processStep (fun _ => none) "p" "j" ⟨[], []⟩ c4Task =
      .ok ⟨["some-resource", "a-resource"], []⟩ := rfl

theorem c4Step2 :
    processStep (fun _ => none) "p" "j"
      ⟨["some-resource", "a-resource"], []⟩ c4Downstream =
      .ok ⟨["some-resource", "a-resource"], []⟩ := rfl

theorem c4Flat :
    flattenedPlan [c4Task, c4Downstream] = [c4Task, c4Downstream] := by
  simp [c4Task, c4Downstream, flattenedPlan]

/-- C4 counterexample: after the upstream task of the §8 scenario is
processed, the declared name `some-resource` IS in the availability set
(alongside `a-resource`), and a downstream task requiring
`some-resource` passes the whole run. -/
theorem output_mapping_cex :
    processSeq (fun _ => none) "p" "j" ⟨[], []⟩ [c4Task] =
      .ok ⟨["some-resource", "a-resource"], []⟩ ∧
    runJob (fun _ => none) "p" [] ⟨"j", [c4Task, c4Downstream]⟩ =
      .ok () := by
  constructor
  · simp only [processSeq, c4Step1]
  · refine runJob_eq_ok _ _ _ _ ⟨["some-resource", "a-resource"], []⟩ ?_
    rewrite [show (Job.mk "j" [c4Task, c4Downstream]).plan =
        [c4Task, c4Downstream] from rfl, c4Flat]
    simp only [processSeq, c4Step1, c4Step2]

/-- C4 (amended): processing a task step appends BOTH every declared
output name and every `output_mapping` value to the availability set; in
the §8 scenario both `some-resource` and `a-resource` become available
downstream. -/
theorem output_mapping_appends_both (fs : String → Option TaskConfig)
    (pipelinePath jobName : String) (st : JobState) (p ct : PlanConfig)
    (hg : p.get = "") (hp : p.put = "") (ht : p.task ≠ "")
    (hflat : flattenTask fs st.resourceMap p jobName = .ok ct)
    (hpar : testParityOfParams ct jobName pipelinePath = .ok ())
    (hpres : testPresenceOfRequiredResources st.resources ct jobName
      pipelinePath = .ok ()) :
    processStep fs pipelinePath jobName st p =
      .ok ⟨st.resources ++ ct.taskConfigD.outputs.map (·.name)
            ++ ct.outputMapping.map Prod.snd, st.resourceMap⟩ ∧
    (∀ o ∈ ct.taskConfigD.outputs.map (·.name),
      o ∈ st.resources ++ ct.taskConfigD.outputs.map (·.name)
            ++ ct.outputMapping.map Prod.snd) ∧
    (∀ v ∈ ct.outputMapping.map Prod.snd,
      v ∈ st.resources ++ ct.taskConfigD.outputs.map (·.name)
            ++ ct.outputMapping.map Prod.snd) := by
  refine ⟨?_, ?_, ?_⟩
  · unfold processStep
    rw [if_neg (by simp [hg]), if_neg (by simp [hp]), if_pos ht, hflat]
    dsimp only
    rw [hpar]
    dsimp only
    rw [hpres]
  · intro o ho
    simp only [List.mem_append]
    exact Or.inl (Or.inr ho)
  · intro v hv
    simp only [List.mem_append]
    exact Or.inr hv

/-- C4 witness for the amended claim: both output names of the concrete
scenario task land in the availability set. -/
theorem output_mapping_appends_both_witness :
    processStep (fun _ => none) "p" "j" ⟨[], []⟩ c4Task =
      .ok ⟨["some-resource", "a-resource"], []⟩ ∧
    "a-resource" ∈ ["some-resource", "a-resource"] := by
  have h := output_mapping_appends_both (fun _ => none) "p" "j"
    ⟨[], []⟩ c4Task c4Task rfl rfl (by decide) rfl rfl rfl
  exact ⟨h.1, h.2.2 "a-resource" (by decide)⟩

/-! ## C8 -/

/-- The parsed content of the file the C8 scenario places at
`/dir/banana.yml`. -/
def c8Config : TaskConfig := ⟨[], ⟨"run.sh"⟩, [], []⟩

/-- The C8 task: external config path `a/banana.yml`, whose first
segment `a` is mapped to `/dir`. -/
def c8Task : PlanConfig :=
  .mk "" "" "" "t8" "a/banana.yml" none [] [] [] none none

/-- The C8 file system: exactly one file, at `/dir/banana.yml` — the
path the mapped directory joined with the remainder `banana.yml`
denotes. -/
def c8Fs : String → Option TaskConfig :=
  fun p => if p = "/dir/banana.yml" then some c8Config else none

/-- C8: `loadTask` builds its file path with
`strings.Replace(taskConfigPath, resourceRoot, "", -1)`, which removes
EVERY occurrence of the resource-name substring, not just the leading
segment: for path `a/banana.yml` with map `a ↦ /dir` it reads
`/dir/bnn.yml` (the `a`s of `banana` are eaten) and fails, even though
the file exists at the path the spec prescribes,
`/dir` joined with the remainder `banana.yml`. -/
theorem loadTask_replace_all_bug :
    loadTask c8Fs [("a", "/dir")] c8Task =
      .error (.taskLoad "/dir/bnn.yml") ∧
    filepathJoin "/dir" "banana.yml" = "/dir/banana.yml" ∧
    c8Fs "/dir/banana.yml" = some c8Config := ⟨rfl, rfl, rfl⟩

/-! ## C5 -/

/-- C5: a renaming get (`get A, resource: S`) with the caller's map
binding `S` to a non-empty directory registers `A` in the per-job
resource map bound to `S`'s path, so an immediately following task whose
`taskConfigPath` has first segment `A` resolves its external config
successfully (given the file at the joined path parses). -/
theorem rename_transparent_resolution (fs : String → Option TaskConfig)
    (pipelinePath jobName : String) (st : JobState) (g t : PlanConfig)
    (A S dir : String) (tc : TaskConfig)
    (hgget : g.get = A) (hA : A ≠ "") (hgres : g.resource = S) (hS : S ≠ "")
    (hmap : mapLookup st.resourceMap S = some dir) (hdir : dir ≠ "")
    (hfirst : firstSegment t.taskConfigPath = A)
    (hfs : fs (filepathJoin dir (stringsReplaceAll t.taskConfigPath A "")) =
      some tc) :
    processStep fs pipelinePath jobName st g =
      .ok ⟨st.resources ++ [A, S], mapInsert st.resourceMap A dir⟩ ∧
    mapLookup (mapInsert st.resourceMap A dir) A = some dir ∧
    loadTask fs (mapInsert st.resourceMap A dir) t =
      .ok (t.withTaskConfig tc) := by
  subst hgget hgres
  have hlook : mapLookup (mapInsert st.resourceMap g.get dir) g.get =
      some dir := by
    simp [mapLookup, mapInsert]
  refine ⟨?_, hlook, ?_⟩
  · unfold processStep
    rw [if_pos hA, if_pos hS, hmap]
    simp
  · unfold loadTask
    simp only [mapInsert, List.isEmpty_cons, Bool.false_eq_true, if_false]
    rw [hfirst]
    rw [show mapLookup ((g.get, dir) :: st.resourceMap) g.get = some dir
      from hlook]
    dsimp only
    rw [if_pos hdir, hfs]

/-- The parsed content of the external task file of the C5 witness. -/
def c5Tc : TaskConfig := ⟨[], ⟨"run.sh"⟩, [], []⟩

/-- The renaming get of the C5 witness:
`get a-resource, resource: some-resource`. -/
def c5Get : PlanConfig :=
  .mk "a-resource" "some-resource" "" "" "" none [] [] [] none none

/-- The task of the C5 witness: external config at
`a-resource/task.yml`. -/
def c5Task : PlanConfig :=
  .mk "" "" "" "t5" "a-resource/task.yml" none [] [] [] none none

/-- The file system of the C5 witness: one file, at `/dir/task.yml`. -/
def c5Fs : String → Option TaskConfig :=
  fun p => if p = "/dir/task.yml" then some c5Tc else none

/-- C5 witness: the §8 rename scenario — `some-resource ↦ /dir` in the
caller's map — resolves `a-resource/task.yml` to `/dir/task.yml`. -/
theorem rename_transparent_resolution_witness :
    processStep c5Fs "p" "j" ⟨[], [("some-resource", "/dir")]⟩ c5Get =
      .ok ⟨["a-resource", "some-resource"],
           [("a-resource", "/dir"), ("some-resource", "/dir")]⟩ ∧
    loadTask c5Fs [("a-resource", "/dir"), ("some-resource", "/dir")]
      c5Task = .ok (c5Task.withTaskConfig c5Tc) := by
  have h := rename_transparent_resolution c5Fs "p" "j"
    ⟨[], [("some-resource", "/dir")]⟩ c5Get c5Task
    "a-resource" "some-resource" "/dir" c5Tc
    rfl (by decide) rfl (by decide) rfl (by decide) (by decide) (by decide)
  exact ⟨h.1, h.2.2⟩

/-! ## C1 -/

theorem processSeq_append (fs : String → Option TaskConfig)
    (pipelinePath jobName : String) (st : JobState)
    (l1 l2 : List PlanConfig) :
    processSeq fs pipelinePath jobName st (l1 ++ l2) =
      match processSeq fs pipelinePath jobName st l1 with
      | .ok st' => processSeq fs pipelinePath jobName st' l2
      | .error e => .error e := by
  induction l1 generalizing st with
  | nil => simp [processSeq]
  | cons p rest ih =>
      simp only [List.cons_append, processSeq]
      cases processStep fs pipelinePath jobName st p with
      | ok st' => exact ih st'
      | error e => rfl

/-- C1: replaying the flattened sequence left to right, a task one of
whose declared inputs `R` is not in the availability set at its position
(neither directly nor through its `InputMapping`) makes the run fail
with the missing-resources error naming `R` — for ANY suffix `post`, so
in particular when `R` is produced only by a later get/put/task; the
availability set the check sees is the one accumulated strictly before
the task, to which the task's own outputs and output-mapping values have
not yet been appended. -/
theorem forward_only_visibility (fs : String → Option TaskConfig)
    (pipelinePath : String) (cfg : List (String × String)) (job : Job)
    (pre post : List PlanConfig) (t ct : PlanConfig) (st : JobState)
    (R : String)
    (hflat : flattenedPlan job.plan = pre ++ t :: post)
    (hg : t.get = "") (hp : t.put = "") (ht : t.task ≠ "")
    (hpre : processSeq fs pipelinePath job.name ⟨[], cfg⟩ pre = .ok st)
    (hresolve : flattenTask fs st.resourceMap t job.name = .ok ct)
    (hpar : testParityOfParams ct job.name pipelinePath = .ok ())
    (hR : R ∈ ct.taskConfigD.inputs.map TaskInputConfig.name)
    (hunsat : inputSatisfied st.resources ct.inputMapping R = false) :
    R ∈ missingInputs st.resources ct ∧
    runJob fs pipelinePath cfg job =
      .error (.missingResources pipelinePath job.name ct.name
        (missingInputs st.resources ct)) := by
  have hmem : R ∈ missingInputs st.resources ct := by
    unfold missingInputs
    rw [List.mem_filter]
    exact ⟨hR, by simp [hunsat]⟩
  have hlen : (missingInputs st.resources ct).length > 0 := by
    cases hmi : missingInputs st.resources ct with
    | nil => rw [hmi] at hmem; cases hmem
    | cons a l => simp
  have hcheck : testPresenceOfRequiredResources st.resources ct job.name
      pipelinePath = .error (.missingResources pipelinePath job.name
        ct.name (missingInputs st.resources ct)) := by
    unfold testPresenceOfRequiredResources
    rw [if_pos hlen]
  have hstep : processStep fs pipelinePath job.name st t =
      .error (.missingResources pipelinePath job.name ct.name
        (missingInputs st.resources ct)) := by
    unfold processStep
    rw [if_neg (by simp [hg]), if_neg (by simp [hp]), if_pos ht, hresolve]
    dsimp only
    rw [hpar]
    dsimp only
    rw [hcheck]
  refine ⟨hmem, runJob_eq_error _ _ _ _ _ ?_⟩
  rw [hflat, processSeq_append, hpre]
  dsimp only
  simp only [processSeq]
  rw [hstep]

/-- The task of the C1 witness: declares input `R`, which nothing before
it produces. -/
def c1Task : PlanConfig :=
  .mk "" "" "" "t1" "" (some ⟨[], ⟨"run.sh"⟩, [⟨"R"⟩], []⟩)
    [] [] [] none none

/-- The get of the C1 witness: produces `R`, but strictly AFTER the task
that requires it. -/
def c1Get : PlanConfig :=
  .mk "R" "" "" "" "" none [] [] [] none none

/-- C1 witness: the job `[task requiring R, get R]` fails with the
missing-resources error naming `R`, even though a later step produces
`R`. -/
theorem forward_only_visibility_witness :
    "R" ∈ missingInputs [] c1Task ∧
    runJob (fun _ => none) "p" [] ⟨"j", [c1Task, c1Get]⟩ =
      .error (.missingResources "p" "j" "t1" (missingInputs [] c1Task)) := by
  have h := forward_only_visibility (fun _ => none) "p" []
    ⟨"j", [c1Task, c1Get]⟩ [] [c1Get] c1Task c1Task ⟨[], []⟩ "R"
    (by simp [c1Task, c1Get, flattenedPlan])
    rfl rfl (by decide) rfl rfl rfl (by decide) rfl
  exact h

end Testpipe
